import Mathlib

/-!
Shallow embedding of `src/elf_changes.py` (class `ElfChanges`).

Strings are modelled as `List Char`; the readelf dump is a `List (List Char)`
of lines (Python: `s.stdout.decode("utf-8").split("\n")`).  Python dicts are
modelled as insertion-ordered association lists (`Dict`): assignment to an
existing key replaces the value in place, assignment to a fresh key appends.

The two regular expressions of the source,

  sections: \s*\[([0-9 ]+)\]\s+([a-z_\.]+)\s+([a-z_]+)\s+([0-9a-f]+)\s+([a-f0-9]+)\s+([a-f0-9]+)
            (re.IGNORECASE, used with re.match)
  symbols:  \s+\d+:\s+([0-9a-f]+)\s+(\d+)\s+(\w+)\s+(\w+)\s+(\w+)\s+(\d+)\s+([\w\.]+)
            (re.IGNORECASE, used with re.match)

are embedded as deterministic maximal-munch scanners.  This is faithful:
in both patterns every two adjacent components are either a character class
followed by a literal that is outside the class (`[0-9 ]+` then `]`,
`\d+` then `:`), or two character classes separated by `\s+` where each
class is disjoint from the whitespace class.  Hence in any successful match
every component must consume exactly the maximal run of its own characters,
so greedy matching without backtracking computes the unique possible match,
and when maximal munch fails no backtracking alternative can succeed.
Character classes are taken over ASCII (readelf output); `re.IGNORECASE`
makes the letter classes cover both cases, which the classes below include.
-/

namespace ElfChanges

/-- Python regex `\s` over ASCII: space, tab, newline, carriage return,
vertical tab, form feed.  Also the character set stripped by `str.strip()`. -/
def isSpaceCh (c : Char) : Bool :=
  c == ' ' || c == '\t' || c == '\n' || c == '\r' || c == '\x0b' || c == '\x0c'

/-- Python regex `\d` (ASCII). -/
def isDigitCh (c : Char) : Bool := c.isDigit

/-- Python regex `[0-9a-f]` with IGNORECASE: a hexadecimal digit. -/
def isHexCh (c : Char) : Bool :=
  c.isDigit || ('a' ≤ c && c ≤ 'f') || ('A' ≤ c && c ≤ 'F')

/-- Python regex `[0-9 ]`: the index group inside the brackets. -/
def isIdxCh (c : Char) : Bool := c.isDigit || c == ' '

/-- Python regex `[a-z_\.]` with IGNORECASE: the section-name group.
Note: letters (either case), underscore and dot only — no digits. -/
def isNameCh (c : Char) : Bool := c.isAlpha || c == '_' || c == '.'

/-- Python regex `[a-z_]` with IGNORECASE: the section-type group. -/
def isTypeCh (c : Char) : Bool := c.isAlpha || c == '_'

/-- Python regex `\w` (ASCII part): letters, digits, underscore. -/
def isWordCh (c : Char) : Bool := c.isAlpha || c.isDigit || c == '_'

/-- Python regex `[\w\.]` (ASCII part): the symbol-name group. -/
def isSymNameCh (c : Char) : Bool := isWordCh c || c == '.'

/-- Maximal munch of one nonempty group of characters satisfying `p`
(one `(C)+` regex component): the group and the rest of the line. -/
def munch1 (p : Char → Bool) (l : List Char) : Option (List Char × List Char) :=
  if (l.takeWhile p).isEmpty then none else some (l.takeWhile p, l.dropWhile p)

/-- One literal character of the pattern. -/
def expectChar (c : Char) : List Char → Option (List Char)
  | [] => none
  | x :: rest => if x = c then some rest else none

/-- Python `pat in line` (substring containment). -/
def containsSub (pat : List Char) : List Char → Bool
  | [] => pat.isEmpty
  | c :: rest => pat.isPrefixOf (c :: rest) || containsSub pat rest

/-- Python `line.strip() == ""`: every character is whitespace. -/
def isBlankLine (l : List Char) : Bool := l.all isSpaceCh

/-- Value of an ASCII digit in the bases used (0-9, a-f, A-F). -/
def digitVal (c : Char) : Nat :=
  if c.isDigit then c.toNat - 48
  else if 'a' ≤ c && c ≤ 'f' then c.toNat - 87
  else if 'A' ≤ c && c ≤ 'F' then c.toNat - 55
  else 0

/-- Positional value of a digit string in base `b`. -/
def natFromDigits (b : Nat) (l : List Char) : Nat :=
  l.foldl (fun acc c => b * acc + digitVal c) 0

/-- Model of Python `int(text, b)` on the texts this program feeds it
(regex groups over the digit alphabet `isD`): it succeeds exactly on a
nonempty all-digit text and returns its positional value, otherwise the
Python call would raise `ValueError` (modelled as `none`). -/
def intOfText? (b : Nat) (isD : Char → Bool) (l : List Char) : Option Nat :=
  if !l.isEmpty && l.all isD then some (natFromDigits b l) else none

/-- The six groups of the section-row regex, in order. -/
structure SectionGroups where
  idx : List Char
  name : List Char
  ty : List Char
  addr : List Char
  off : List Char
  size : List Char
deriving DecidableEq

/-- The seven groups of the symbol-row regex, in order. -/
structure SymbolGroups where
  value : List Char
  size : List Char
  ty : List Char
  bind : List Char
  vis : List Char
  ndx : List Char
  name : List Char
deriving DecidableEq

/-- One component of a linear regex of the shape used by the source:
a leading `\s*`, a literal character, a non-capturing `C+` run, or a
capturing `(C)+` group over a character class. -/
inductive PatTok where
  | ws0 : PatTok
  | lit : Char → PatTok
  | skip : (Char → Bool) → PatTok
  | grp : (Char → Bool) → PatTok

/-- Run a linear pattern from the start of a line (`re.match`): each
component consumes its maximal run (see the header comment for why this
equals the backtracking semantics on these patterns), and the captured
groups are returned in order.  Trailing text after the last component is
ignored, as with `re.match`. -/
def runPattern : List PatTok → List Char → Option (List (List Char))
  | [], _ => some []
  | PatTok.ws0 :: ts, l => runPattern ts (l.dropWhile isSpaceCh)
  | PatTok.lit c :: ts, l =>
    match expectChar c l with
    | some l1 => runPattern ts l1
    | none => none
  | PatTok.skip p :: ts, l =>
    match munch1 p l with
    | some q => runPattern ts q.2
    | none => none
  | PatTok.grp p :: ts, l =>
    match munch1 p l with
    | some q =>
      match runPattern ts q.2 with
      | some gs => some (q.1 :: gs)
      | none => none
    | none => none

/-- The section-row pattern, component by component:
`\s*\[([0-9 ]+)\]\s+([a-z_\.]+)\s+([a-z_]+)\s+([0-9a-f]+)\s+([a-f0-9]+)\s+([a-f0-9]+)`
with IGNORECASE. -/
def sectionPattern : List PatTok :=
  [PatTok.ws0, PatTok.lit '[', PatTok.grp isIdxCh, PatTok.lit ']',
   PatTok.skip isSpaceCh, PatTok.grp isNameCh,
   PatTok.skip isSpaceCh, PatTok.grp isTypeCh,
   PatTok.skip isSpaceCh, PatTok.grp isHexCh,
   PatTok.skip isSpaceCh, PatTok.grp isHexCh,
   PatTok.skip isSpaceCh, PatTok.grp isHexCh]

/-- The symbol-row pattern, component by component:
`\s+\d+:\s+([0-9a-f]+)\s+(\d+)\s+(\w+)\s+(\w+)\s+(\w+)\s+(\d+)\s+([\w\.]+)`
with IGNORECASE. -/
def symbolPattern : List PatTok :=
  [PatTok.skip isSpaceCh, PatTok.skip isDigitCh, PatTok.lit ':',
   PatTok.skip isSpaceCh, PatTok.grp isHexCh,
   PatTok.skip isSpaceCh, PatTok.grp isDigitCh,
   PatTok.skip isSpaceCh, PatTok.grp isWordCh,
   PatTok.skip isSpaceCh, PatTok.grp isWordCh,
   PatTok.skip isSpaceCh, PatTok.grp isWordCh,
   PatTok.skip isSpaceCh, PatTok.grp isDigitCh,
   PatTok.skip isSpaceCh, PatTok.grp isSymNameCh]

/-- `re.match` of the section-row pattern: six groups on success. -/
def sectionRowMatch (l : List Char) : Option SectionGroups :=
  match runPattern sectionPattern l with
  | some [g1, g2, g3, g4, g5, g6] => some ⟨g1, g2, g3, g4, g5, g6⟩
  | _ => none

/-- `re.match` of the symbol-row pattern: seven groups on success. -/
def symbolRowMatch (l : List Char) : Option SymbolGroups :=
  match runPattern symbolPattern l with
  | some [g1, g2, g3, g4, g5, g6, g7] => some ⟨g1, g2, g3, g4, g5, g6, g7⟩
  | _ => none

/-- The Python dict `{"name": ..., "type": ..., "address": ..., "offset": ...,
"size": ...}` built for one matched section row. -/
structure SectionRecord where
  name : List Char
  ty : List Char
  address : Nat
  offset : Nat
  size : Nat
deriving DecidableEq

/-- The Python dict `{"address": ..., "size": ..., "name": ...}` built for
one matched symbol row. -/
structure SymbolRecord where
  name : List Char
  address : Nat
  size : Nat
deriving DecidableEq

/-- Line 59 of the source: `{"name": match.group(2), "type": match.group(3),
"address": int(match.group(4), 16), "offset": int(match.group(5), 16),
"size": int(match.group(6), 16)}`.  The `int` calls are the fallible part. -/
def buildSectionRecord (g : SectionGroups) : Option SectionRecord :=
  match intOfText? 16 isHexCh g.addr, intOfText? 16 isHexCh g.off,
        intOfText? 16 isHexCh g.size with
  | some a, some o, some s => some ⟨g.name, g.ty, a, o, s⟩
  | _, _, _ => none

/-- Line 96 of the source: `{"address": int(match.group(1), 16),
"size": int(match.group(2)), "name": match.group(7)}`. -/
def buildSymbolRecord (g : SymbolGroups) : Option SymbolRecord :=
  match intOfText? 16 isHexCh g.value, intOfText? 10 isDigitCh g.size with
  | some a, some s => some ⟨g.name, a, s⟩
  | _, _ => none

/-- Full processing of one candidate section row: regex match, then the
numeric conversions. -/
def sectionParseRow (l : List Char) : Option SectionRecord :=
  (sectionRowMatch l).bind buildSectionRecord

/-- Full processing of one candidate symbol row. -/
def symbolParseRow (l : List Char) : Option SymbolRecord :=
  (symbolRowMatch l).bind buildSymbolRecord

/-- A Python dict keyed by strings: an insertion-ordered association list
with unique keys. -/
abbrev Dict (α : Type) := List (List Char × α)

/-- Python `d[k]`(read) / `k in d`: first (unique) binding of `k`. -/
def dlookup {α : Type} : Dict α → List Char → Option α
  | [], _ => none
  | (k0, v0) :: rest, k => if k0 = k then some v0 else dlookup rest k

/-- Python `d[k] = v`: replace in place if the key exists, else append. -/
def dictInsert {α : Type} : Dict α → List Char → α → Dict α
  | [], k, v => [(k, v)]
  | (k0, v0) :: rest, k, v =>
    if k0 = k then (k0, v) :: rest else (k0, v0) :: dictInsert rest k v

/-- The keys of a dict are pairwise distinct (true of every Python dict). -/
def nodupKeys {α : Type} (m : Dict α) : Prop := (m.map Prod.fst).Nodup

/-- The header marker of the section table: `"Section Headers:" in f`. -/
def sectionMarker : List Char := "Section Headers:".data

/-- The header marker of a symbol table: `l.startswith("Symbol table ")`. -/
def symbolMarker : List Char := "Symbol table ".data

/-- One iteration of the loop of `_parse_readelf_sections` (lines 48-61):
before the marker, look for the marker; in-table, a blank line leaves the
table, and the line is matched as a row (a blank line never matches). -/
def sectionStep (f : List Char) (in_headers : Bool) (sections : Dict SectionRecord) :
    Bool × Dict SectionRecord :=
  if !in_headers then
    (containsSub sectionMarker f, sections)
  else
    let ih := if isBlankLine f then false else true
    match sectionParseRow f with
    | some r => (ih, dictInsert sections r.name r)
    | none => (ih, sections)

/-- One iteration of the loop of `_parse_readelf_symbols` (lines 89-97):
before the first marker, look for the marker; afterwards every line is
matched as a row (the in-table flag is never reset). -/
def symbolStep (l : List Char) (in_table : Bool) (symbols : Dict SymbolRecord) :
    Bool × Dict SymbolRecord :=
  if !in_table then
    (symbolMarker.isPrefixOf l, symbols)
  else
    match symbolParseRow l with
    | some r => (true, dictInsert symbols r.name r)
    | none => (true, symbols)

/-- The loop of `_parse_readelf_sections` from a given state. -/
def parseSectionsAux : List (List Char) → Bool → Dict SectionRecord → Dict SectionRecord
  | [], _, sections => sections
  | f :: rest, in_headers, sections =>
    let st := sectionStep f in_headers sections
    parseSectionsAux rest st.1 st.2

/-- `_parse_readelf_sections` (lines 31-63). -/
def parseSections (lines : List (List Char)) : Dict SectionRecord :=
  parseSectionsAux lines false []

/-- The loop of `_parse_readelf_symbols` from a given state. -/
def parseSymbolsAux : List (List Char) → Bool → Dict SymbolRecord → Dict SymbolRecord
  | [], _, symbols => symbols
  | l :: rest, in_table, symbols =>
    let st := symbolStep l in_table symbols
    parseSymbolsAux rest st.1 st.2

/-- `_parse_readelf_symbols` (lines 65-99). -/
def parseSymbols (lines : List (List Char)) : Dict SymbolRecord :=
  parseSymbolsAux lines false []

/-- The matched rows of the section pass, in input order: the `(name,
record)` pairs that the loop assigns into its dict.  (The matching of a
line depends only on the in-table flag, not on the dict.) -/
def sectionTraceAux : List (List Char) → Bool → List (List Char × SectionRecord)
  | [], _ => []
  | f :: rest, in_headers =>
    if !in_headers then
      sectionTraceAux rest (containsSub sectionMarker f)
    else
      let ih := if isBlankLine f then false else true
      match sectionParseRow f with
      | some r => (r.name, r) :: sectionTraceAux rest ih
      | none => sectionTraceAux rest ih

/-- The matched rows of the symbol pass, in input order. -/
def symbolTraceAux : List (List Char) → Bool → List (List Char × SymbolRecord)
  | [], _ => []
  | l :: rest, in_table =>
    if !in_table then
      symbolTraceAux rest (symbolMarker.isPrefixOf l)
    else
      match symbolParseRow l with
      | some r => (r.name, r) :: symbolTraceAux rest in_table
      | none => symbolTraceAux rest in_table

/-- Sequence of dict assignments. -/
def dictInsertAll {α : Type} (m : Dict α) : List (List Char × α) → Dict α
  | [] => m
  | (k, v) :: rest => dictInsertAll (dictInsert m k v) rest

/-- The last binding produced for key `k` by a sequence of assignments. -/
def findLastPair {α : Type} : List (List Char × α) → List Char → Option α
  | [], _ => none
  | (k0, v) :: rest, k =>
    match findLastPair rest k with
    | some r => some r
    | none => if k0 = k then some v else none

/-- The record built from the last line of `ls` that matches the symbol-row
pattern with name `k`. -/
def findLastSym : List (List Char) → List Char → Option SymbolRecord
  | [], _ => none
  | l :: ls, k =>
    match findLastSym ls k with
    | some r => some r
    | none =>
      match symbolParseRow l with
      | some r => if r.name = k then some r else none
      | none => none

/-- The Python dict `{"old": ..., "new": ..., "diff": ..., "change": ...}`
built by `_changes` for one changed entity. -/
structure ChangeRecord where
  old : Nat
  new : Nat
  diff : Int
  change : List Char
deriving DecidableEq

/-- First loop of `_changes` (lines 103-110): iterate the old map; a name
also in the new map yields a resize record when the sizes differ, a name
only in the old map yields a removed record.  `size` abstracts the
`["size"]` field access (the maps hold section or symbol records). -/
def changesLoop1 {α : Type} (size : α → Nat) (new_map : Dict α) :
    Dict α → Dict ChangeRecord → Dict ChangeRecord
  | [], ch => ch
  | (s, old) :: rest, ch =>
    changesLoop1 size new_map rest
      (match dlookup new_map s with
       | some new =>
         if size old ≠ size new then
           dictInsert ch s
             ⟨size old, size new, (size new : Int) - (size old : Int), "resize".data⟩
         else ch
       | none =>
         dictInsert ch s ⟨size old, 0, -(size old : Int), "removed".data⟩)

/-- Second loop of `_changes` (lines 111-114): every name only in the new
map yields an added record. -/
def changesLoop2 {α : Type} (size : α → Nat) (old_map : Dict α) :
    Dict α → Dict ChangeRecord → Dict ChangeRecord
  | [], ch => ch
  | (s, new) :: rest, ch =>
    changesLoop2 size old_map rest
      (match dlookup old_map s with
       | some _ => ch
       | none => dictInsert ch s ⟨0, size new, (size new : Int), "added".data⟩)

/-- `_changes` (lines 101-115).  Iterating `for s in old_map` with
`old = old_map[s]` visits exactly the entries of the dict, in order. -/
def changes {α : Type} (size : α → Nat) (old_map new_map : Dict α) :
    Dict ChangeRecord :=
  changesLoop2 size old_map new_map (changesLoop1 size new_map old_map [])

/-! ### Lemmas about the scanners -/

/-- `true` when the first character of `l` (if any) fails `p`: the shape of
the text at a component boundary. -/
def headNot (p : Char → Bool) : List Char → Bool
  | [] => true
  | c :: _ => !p c

theorem takeWhile_append_all (p : Char → Bool) (rest : List Char) :
    ∀ xs : List Char, (∀ x ∈ xs, p x = true) → headNot p rest = true →
      (xs ++ rest).takeWhile p = xs ∧ (xs ++ rest).dropWhile p = rest := by
  intro xs hall hrest
  induction xs with
  | nil =>
    simp only [List.nil_append]
    cases rest with
    | nil => simp
    | cons c t =>
      simp only [headNot, Bool.not_eq_true'] at hrest
      simp [List.takeWhile_cons, List.dropWhile_cons, hrest]
  | cons x xs ih =>
    have hx : p x = true := hall x (by simp)
    have hxs : ∀ x ∈ xs, p x = true := fun y hy => hall y (by simp [hy])
    have := ih hxs
    simp [List.takeWhile_cons, List.dropWhile_cons, hx, this.1, this.2]

theorem munch1_append (p : Char → Bool) (xs rest : List Char)
    (hne : xs ≠ []) (hall : ∀ x ∈ xs, p x = true) (hrest : headNot p rest = true) :
    munch1 p (xs ++ rest) = some (xs, rest) := by
  have h := takeWhile_append_all p rest xs hall hrest
  unfold munch1
  rw [h.1, h.2]
  cases xs with
  | nil => exact absurd rfl hne
  | cons a t => simp [List.isEmpty]

theorem mem_takeWhile_pred (p : Char → Bool) :
    ∀ l : List Char, ∀ c ∈ l.takeWhile p, p c = true := by
  intro l
  induction l with
  | nil => intro c hc; simp [List.takeWhile] at hc
  | cons a t ih =>
    intro c hc
    cases hpa : p a with
    | true =>
      rw [List.takeWhile_cons, hpa] at hc
      simp only [if_pos] at hc
      rcases List.mem_cons.mp hc with h | h
      · rw [h]; exact hpa
      · exact ih c h
    | false =>
      rw [List.takeWhile_cons, hpa] at hc
      simp at hc

theorem munch1_sound (p : Char → Bool) (l g rest : List Char)
    (h : munch1 p l = some (g, rest)) :
    g ≠ [] ∧ (∀ c ∈ g, p c = true) ∧ g ++ rest = l := by
  unfold munch1 at h
  by_cases he : (l.takeWhile p).isEmpty
  · rw [if_pos he] at h
    exact absurd h (by simp)
  · rw [if_neg he] at h
    have h1 : l.takeWhile p = g ∧ l.dropWhile p = rest := by
      simpa using h
    obtain ⟨hg, hr⟩ := h1
    refine ⟨?_, ?_, ?_⟩
    · intro hnil
      rw [hg, hnil] at he
      exact he rfl
    · intro c hc
      exact mem_takeWhile_pred p l c (hg ▸ hc)
    · rw [← hg, ← hr]
      exact List.takeWhile_append_dropWhile p l

theorem runPattern_ws0 (ts : List PatTok) (l : List Char) :
    runPattern (PatTok.ws0 :: ts) l = runPattern ts (l.dropWhile isSpaceCh) := rfl

theorem runPattern_lit (c : Char) (ts : List PatTok) (rest : List Char) :
    runPattern (PatTok.lit c :: ts) (c :: rest) = runPattern ts rest := by
  simp [runPattern, expectChar]

theorem runPattern_skip (p : Char → Bool) (ts : List PatTok) (xs rest : List Char)
    (hne : xs ≠ []) (hall : ∀ x ∈ xs, p x = true) (hrest : headNot p rest = true) :
    runPattern (PatTok.skip p :: ts) (xs ++ rest) = runPattern ts rest := by
  simp [runPattern, munch1_append p xs rest hne hall hrest]

theorem runPattern_grp (p : Char → Bool) (ts : List PatTok) (xs rest : List Char)
    (hne : xs ≠ []) (hall : ∀ x ∈ xs, p x = true) (hrest : headNot p rest = true) :
    runPattern (PatTok.grp p :: ts) (xs ++ rest) =
      (runPattern ts rest).map (fun gs => xs :: gs) := by
  simp only [runPattern, munch1_append p xs rest hne hall hrest]
  cases runPattern ts rest <;> simp

/-- The character classes of the capturing groups of a pattern, in order. -/
def grpPreds : List PatTok → List (Char → Bool)
  | [] => []
  | PatTok.grp p :: ts => p :: grpPreds ts
  | PatTok.ws0 :: ts => grpPreds ts
  | PatTok.lit _ :: ts => grpPreds ts
  | PatTok.skip _ :: ts => grpPreds ts

/-- Every group a pattern captures is a nonempty run of its own class. -/
theorem runPattern_groups_valid :
    ∀ (ts : List PatTok) (l : List Char) (gs : List (List Char)),
      runPattern ts l = some gs →
      List.Forall₂ (fun p g => g ≠ [] ∧ ∀ c ∈ g, p c = true) (grpPreds ts) gs := by
  intro ts
  induction ts with
  | nil =>
    intro l gs h
    simp only [runPattern, Option.some.injEq] at h
    rw [← h]
    exact List.Forall₂.nil
  | cons t ts ih =>
    intro l gs h
    cases t with
    | ws0 => exact ih _ gs h
    | lit c =>
      simp only [runPattern] at h
      cases he : expectChar c l with
      | none => rw [he] at h; exact absurd h (by simp)
      | some l1 => rw [he] at h; exact ih l1 gs h
    | skip p =>
      simp only [runPattern] at h
      cases hm : munch1 p l with
      | none => rw [hm] at h; exact absurd h (by simp)
      | some q => rw [hm] at h; exact ih q.2 gs h
    | grp p =>
      simp only [runPattern] at h
      cases hm : munch1 p l with
      | none => rw [hm] at h; exact absurd h (by simp)
      | some q =>
        rw [hm] at h
        dsimp only at h
        cases hr : runPattern ts q.2 with
        | none => rw [hr] at h; exact absurd h (by simp)
        | some gs' =>
          rw [hr] at h
          have hq := munch1_sound p l q.1 q.2 (by rw [hm])
          have hgs : gs = q.1 :: gs' := by simpa using h.symm
          rw [hgs]
          exact List.Forall₂.cons ⟨hq.1, hq.2.1⟩ (ih q.2 gs' hr)

/-- On a matched section row every group is a nonempty run of its class. -/
theorem sectionRowMatch_sound (l : List Char) (g : SectionGroups)
    (h : sectionRowMatch l = some g) :
    (g.idx ≠ [] ∧ ∀ c ∈ g.idx, isIdxCh c = true) ∧
    (g.name ≠ [] ∧ ∀ c ∈ g.name, isNameCh c = true) ∧
    (g.ty ≠ [] ∧ ∀ c ∈ g.ty, isTypeCh c = true) ∧
    (g.addr ≠ [] ∧ ∀ c ∈ g.addr, isHexCh c = true) ∧
    (g.off ≠ [] ∧ ∀ c ∈ g.off, isHexCh c = true) ∧
    (g.size ≠ [] ∧ ∀ c ∈ g.size, isHexCh c = true) := by
  unfold sectionRowMatch at h
  cases hr : runPattern sectionPattern l with
  | none => rw [hr] at h; exact absurd h (by simp)
  | some gs =>
    rw [hr] at h
    have hv := runPattern_groups_valid sectionPattern l gs hr
    match gs, h, hv with
    | [g1, g2, g3, g4, g5, g6], h, hv =>
      have hg : g = ⟨g1, g2, g3, g4, g5, g6⟩ := by simpa using h.symm
      rw [hg]
      rcases hv with - | ⟨h1, - | ⟨h2, - | ⟨h3, - | ⟨h4, - | ⟨h5, - | ⟨h6, -⟩⟩⟩⟩⟩⟩
      exact ⟨h1, h2, h3, h4, h5, h6⟩

/-- On a matched symbol row every group is a nonempty run of its class. -/
theorem symbolRowMatch_sound (l : List Char) (g : SymbolGroups)
    (h : symbolRowMatch l = some g) :
    (g.value ≠ [] ∧ ∀ c ∈ g.value, isHexCh c = true) ∧
    (g.size ≠ [] ∧ ∀ c ∈ g.size, isDigitCh c = true) ∧
    (g.name ≠ [] ∧ ∀ c ∈ g.name, isSymNameCh c = true) := by
  unfold symbolRowMatch at h
  cases hr : runPattern symbolPattern l with
  | none => rw [hr] at h; exact absurd h (by simp)
  | some gs =>
    rw [hr] at h
    have hv := runPattern_groups_valid symbolPattern l gs hr
    match gs, h, hv with
    | [g1, g2, g3, g4, g5, g6, g7], h, hv =>
      have hg : g = ⟨g1, g2, g3, g4, g5, g6, g7⟩ := by simpa using h.symm
      rw [hg]
      rcases hv with - | ⟨h1, - | ⟨h2, - | ⟨-, - | ⟨-, - | ⟨-, - | ⟨-, - | ⟨h7, -⟩⟩⟩⟩⟩⟩⟩
      exact ⟨h1, h2, h7⟩

theorem intOfText?_digits (b : Nat) (isD : Char → Bool) (l : List Char)
    (hne : l ≠ []) (hall : ∀ c ∈ l, isD c = true) :
    intOfText? b isD l = some (natFromDigits b l) := by
  unfold intOfText?
  have h1 : l.isEmpty = false := by
    cases l with
    | nil => exact absurd rfl hne
    | cons a t => simp [List.isEmpty]
  have h2 : l.all isD = true := List.all_eq_true.mpr hall
  simp [h1, h2]

/-- On a matched section row the three `int(_, 16)` conversions succeed. -/
theorem buildSectionRecord_of_match (l : List Char) (g : SectionGroups)
    (h : sectionRowMatch l = some g) :
    buildSectionRecord g =
      some ⟨g.name, g.ty, natFromDigits 16 g.addr, natFromDigits 16 g.off,
            natFromDigits 16 g.size⟩ := by
  obtain ⟨-, -, -, ha, ho, hs⟩ := sectionRowMatch_sound l g h
  unfold buildSectionRecord
  rw [intOfText?_digits 16 isHexCh g.addr ha.1 ha.2,
      intOfText?_digits 16 isHexCh g.off ho.1 ho.2,
      intOfText?_digits 16 isHexCh g.size hs.1 hs.2]

/-- On a matched symbol row the two `int` conversions succeed. -/
theorem buildSymbolRecord_of_match (l : List Char) (g : SymbolGroups)
    (h : symbolRowMatch l = some g) :
    buildSymbolRecord g =
      some ⟨g.name, natFromDigits 16 g.value, natFromDigits 10 g.size⟩ := by
  obtain ⟨ha, hs, -⟩ := symbolRowMatch_sound l g h
  unfold buildSymbolRecord
  rw [intOfText?_digits 16 isHexCh g.value ha.1 ha.2,
      intOfText?_digits 10 isDigitCh g.size hs.1 hs.2]

theorem isSpaceCh_cases (c : Char) (h : isSpaceCh c = true) :
    c = ' ' ∨ c = '\t' ∨ c = '\n' ∨ c = '\r' ∨ c = '\x0b' ∨ c = '\x0c' := by
  simp only [isSpaceCh, Bool.or_eq_true, beq_iff_eq] at h
  tauto

/-- A character class that rejects the six whitespace characters is
disjoint from the whitespace class. -/
theorem not_space_of_pred (p : Char → Bool)
    (hb : p ' ' = false ∧ p '\t' = false ∧ p '\n' = false ∧ p '\r' = false ∧
          p '\x0b' = false ∧ p '\x0c' = false) :
    ∀ c, p c = true → isSpaceCh c = false := by
  intro c h
  cases hs : isSpaceCh c with
  | false => rfl
  | true =>
    exfalso
    rcases isSpaceCh_cases c hs with h1 | h1 | h1 | h1 | h1 | h1 <;>
      (subst h1; simp_all)

theorem headNot_of_class (p q : Char → Bool) (hpq : ∀ c, q c = true → p c = false)
    (ys R : List Char) (hne : ys ≠ []) (hall : ∀ c ∈ ys, q c = true) :
    headNot p (ys ++ R) = true := by
  cases ys with
  | nil => exact absurd rfl hne
  | cons y t =>
    have : p y = false := hpq y (hall y (by simp))
    simp [headNot, this]

theorem nameCh_not_space : ∀ c, isNameCh c = true → isSpaceCh c = false :=
  not_space_of_pred isNameCh (by decide)

theorem typeCh_not_space : ∀ c, isTypeCh c = true → isSpaceCh c = false :=
  not_space_of_pred isTypeCh (by decide)

theorem hexCh_not_space : ∀ c, isHexCh c = true → isSpaceCh c = false :=
  not_space_of_pred isHexCh (by decide)

theorem digitCh_not_space : ∀ c, isDigitCh c = true → isSpaceCh c = false :=
  not_space_of_pred isDigitCh (by decide)

theorem wordCh_not_space : ∀ c, isWordCh c = true → isSpaceCh c = false :=
  not_space_of_pred isWordCh (by decide)

theorem symNameCh_not_space : ∀ c, isSymNameCh c = true → isSpaceCh c = false :=
  not_space_of_pred isSymNameCh (by decide)

/-- Acceptance of the section-row pattern: any line of the row shape —
optional leading whitespace, a bracketed index, then name, type and three
hex fields (single-space separated, the name over the class letters,
underscore, dot), with any trailing text not starting in a hex digit —
matches, captures the six fields verbatim and yields the record with the
three numbers read in base 16. -/
theorem sectionRow_accepts
    (lead idx name ty a o sz trailing : List Char)
    (hlead : ∀ c ∈ lead, isSpaceCh c = true)
    (hidx : idx ≠ []) (hidxall : ∀ c ∈ idx, isIdxCh c = true)
    (hname : name ≠ []) (hnameall : ∀ c ∈ name, isNameCh c = true)
    (hty : ty ≠ []) (htyall : ∀ c ∈ ty, isTypeCh c = true)
    (ha : a ≠ []) (haall : ∀ c ∈ a, isHexCh c = true)
    (ho : o ≠ []) (hoall : ∀ c ∈ o, isHexCh c = true)
    (hsz : sz ≠ []) (hszall : ∀ c ∈ sz, isHexCh c = true)
    (htr : headNot isHexCh trailing = true) :
    sectionParseRow
      (lead ++ '[' :: (idx ++ ']' :: ' ' ::
        (name ++ ' ' :: (ty ++ ' ' :: (a ++ ' ' :: (o ++ ' ' :: (sz ++ trailing))))))) =
      some ⟨name, ty, natFromDigits 16 a, natFromDigits 16 o, natFromDigits 16 sz⟩ := by
  have h6 : runPattern [PatTok.grp isHexCh] (sz ++ trailing) = some [sz] := by
    rw [runPattern_grp isHexCh [] sz trailing hsz hszall htr]
    rfl
  have h5 : runPattern [PatTok.skip isSpaceCh, PatTok.grp isHexCh]
      (' ' :: (sz ++ trailing)) = some [sz] := by
    rw [show (' ' :: (sz ++ trailing)) = [' '] ++ (sz ++ trailing) from rfl]
    rw [runPattern_skip isSpaceCh _ [' '] (sz ++ trailing) (by simp) (by decide)
          (headNot_of_class isSpaceCh isHexCh hexCh_not_space sz trailing hsz hszall)]
    exact h6
  have h4 : runPattern
      [PatTok.grp isHexCh, PatTok.skip isSpaceCh, PatTok.grp isHexCh]
      (o ++ ' ' :: (sz ++ trailing)) = some [o, sz] := by
    rw [runPattern_grp isHexCh _ o (' ' :: (sz ++ trailing)) ho hoall rfl, h5]
    rfl
  have h3 : runPattern
      [PatTok.skip isSpaceCh, PatTok.grp isHexCh, PatTok.skip isSpaceCh,
       PatTok.grp isHexCh] (' ' :: (o ++ ' ' :: (sz ++ trailing))) = some [o, sz] := by
    rw [show (' ' :: (o ++ ' ' :: (sz ++ trailing))) =
          [' '] ++ (o ++ ' ' :: (sz ++ trailing)) from rfl]
    rw [runPattern_skip isSpaceCh _ [' '] _ (by simp) (by decide)
          (headNot_of_class isSpaceCh isHexCh hexCh_not_space o _ ho hoall)]
    exact h4
  have h2 : runPattern
      [PatTok.grp isHexCh, PatTok.skip isSpaceCh, PatTok.grp isHexCh,
       PatTok.skip isSpaceCh, PatTok.grp isHexCh]
      (a ++ ' ' :: (o ++ ' ' :: (sz ++ trailing))) = some [a, o, sz] := by
    rw [runPattern_grp isHexCh _ a (' ' :: (o ++ ' ' :: (sz ++ trailing))) ha haall rfl, h3]
    rfl
  have h1 : runPattern
      [PatTok.skip isSpaceCh, PatTok.grp isHexCh, PatTok.skip isSpaceCh,
       PatTok.grp isHexCh, PatTok.skip isSpaceCh, PatTok.grp isHexCh]
      (' ' :: (a ++ ' ' :: (o ++ ' ' :: (sz ++ trailing)))) = some [a, o, sz] := by
    rw [show (' ' :: (a ++ ' ' :: (o ++ ' ' :: (sz ++ trailing)))) =
          [' '] ++ (a ++ ' ' :: (o ++ ' ' :: (sz ++ trailing))) from rfl]
    rw [runPattern_skip isSpaceCh _ [' '] _ (by simp) (by decide)
          (headNot_of_class isSpaceCh isHexCh hexCh_not_space a _ ha haall)]
    exact h2
  have hty2 : runPattern
      [PatTok.grp isTypeCh, PatTok.skip isSpaceCh, PatTok.grp isHexCh,
       PatTok.skip isSpaceCh, PatTok.grp isHexCh, PatTok.skip isSpaceCh,
       PatTok.grp isHexCh]
      (ty ++ ' ' :: (a ++ ' ' :: (o ++ ' ' :: (sz ++ trailing)))) =
      some [ty, a, o, sz] := by
    rw [runPattern_grp isTypeCh _ ty (' ' :: (a ++ ' ' :: (o ++ ' ' :: (sz ++ trailing)))) hty htyall rfl, h1]
    rfl
  have hty1 : runPattern
      [PatTok.skip isSpaceCh, PatTok.grp isTypeCh, PatTok.skip isSpaceCh,
       PatTok.grp isHexCh, PatTok.skip isSpaceCh, PatTok.grp isHexCh,
       PatTok.skip isSpaceCh, PatTok.grp isHexCh]
      (' ' :: (ty ++ ' ' :: (a ++ ' ' :: (o ++ ' ' :: (sz ++ trailing))))) =
      some [ty, a, o, sz] := by
    rw [show (' ' :: (ty ++ ' ' :: (a ++ ' ' :: (o ++ ' ' :: (sz ++ trailing))))) =
          [' '] ++ (ty ++ ' ' :: (a ++ ' ' :: (o ++ ' ' :: (sz ++ trailing)))) from rfl]
    rw [runPattern_skip isSpaceCh _ [' '] _ (by simp) (by decide)
          (headNot_of_class isSpaceCh isTypeCh typeCh_not_space ty _ hty htyall)]
    exact hty2
  have hnm2 : runPattern
      [PatTok.grp isNameCh, PatTok.skip isSpaceCh, PatTok.grp isTypeCh,
       PatTok.skip isSpaceCh, PatTok.grp isHexCh, PatTok.skip isSpaceCh,
       PatTok.grp isHexCh, PatTok.skip isSpaceCh, PatTok.grp isHexCh]
      (name ++ ' ' :: (ty ++ ' ' :: (a ++ ' ' :: (o ++ ' ' :: (sz ++ trailing))))) =
      some [name, ty, a, o, sz] := by
    rw [runPattern_grp isNameCh _ name (' ' :: (ty ++ ' ' :: (a ++ ' ' :: (o ++ ' ' :: (sz ++ trailing))))) hname hnameall rfl, hty1]
    rfl
  have hnm1 : runPattern
      [PatTok.skip isSpaceCh, PatTok.grp isNameCh, PatTok.skip isSpaceCh,
       PatTok.grp isTypeCh, PatTok.skip isSpaceCh, PatTok.grp isHexCh,
       PatTok.skip isSpaceCh, PatTok.grp isHexCh, PatTok.skip isSpaceCh,
       PatTok.grp isHexCh]
      (' ' :: (name ++ ' ' :: (ty ++ ' ' :: (a ++ ' ' :: (o ++ ' ' :: (sz ++ trailing)))))) =
      some [name, ty, a, o, sz] := by
    rw [show (' ' :: (name ++ ' ' :: (ty ++ ' ' :: (a ++ ' ' :: (o ++ ' ' :: (sz ++ trailing)))))) =
          [' '] ++ (name ++ ' ' :: (ty ++ ' ' :: (a ++ ' ' :: (o ++ ' ' :: (sz ++ trailing))))) from rfl]
    rw [runPattern_skip isSpaceCh _ [' '] _ (by simp) (by decide)
          (headNot_of_class isSpaceCh isNameCh nameCh_not_space name _ hname hnameall)]
    exact hnm2
  have hidx2 : runPattern
      [PatTok.lit ']', PatTok.skip isSpaceCh, PatTok.grp isNameCh,
       PatTok.skip isSpaceCh, PatTok.grp isTypeCh, PatTok.skip isSpaceCh,
       PatTok.grp isHexCh, PatTok.skip isSpaceCh, PatTok.grp isHexCh,
       PatTok.skip isSpaceCh, PatTok.grp isHexCh]
      (']' :: ' ' :: (name ++ ' ' :: (ty ++ ' ' :: (a ++ ' ' :: (o ++ ' ' :: (sz ++ trailing)))))) =
      some [name, ty, a, o, sz] := by
    rw [runPattern_lit]
    exact hnm1
  have hidx1 : runPattern
      [PatTok.grp isIdxCh, PatTok.lit ']', PatTok.skip isSpaceCh,
       PatTok.grp isNameCh, PatTok.skip isSpaceCh, PatTok.grp isTypeCh,
       PatTok.skip isSpaceCh, PatTok.grp isHexCh, PatTok.skip isSpaceCh,
       PatTok.grp isHexCh, PatTok.skip isSpaceCh, PatTok.grp isHexCh]
      (idx ++ ']' :: ' ' :: (name ++ ' ' :: (ty ++ ' ' :: (a ++ ' ' :: (o ++ ' ' :: (sz ++ trailing)))))) =
      some [idx, name, ty, a, o, sz] := by
    rw [runPattern_grp isIdxCh _ idx
          (']' :: ' ' :: (name ++ ' ' :: (ty ++ ' ' :: (a ++ ' ' :: (o ++ ' ' :: (sz ++ trailing))))))
          hidx hidxall rfl, hidx2]
    rfl
  have hrow : runPattern sectionPattern
      (lead ++ '[' :: (idx ++ ']' :: ' ' ::
        (name ++ ' ' :: (ty ++ ' ' :: (a ++ ' ' :: (o ++ ' ' :: (sz ++ trailing))))))) =
      some [idx, name, ty, a, o, sz] := by
    unfold sectionPattern
    rw [runPattern_ws0]
    rw [(takeWhile_append_all isSpaceCh
          ('[' :: (idx ++ ']' :: ' ' ::
            (name ++ ' ' :: (ty ++ ' ' :: (a ++ ' ' :: (o ++ ' ' :: (sz ++ trailing)))))))
          lead hlead rfl).2]
    rw [runPattern_lit]
    exact hidx1
  have hmatch : sectionRowMatch
      (lead ++ '[' :: (idx ++ ']' :: ' ' ::
        (name ++ ' ' :: (ty ++ ' ' :: (a ++ ' ' :: (o ++ ' ' :: (sz ++ trailing))))))) =
      some ⟨idx, name, ty, a, o, sz⟩ := by
    unfold sectionRowMatch
    rw [hrow]
  unfold sectionParseRow
  rw [hmatch]
  simpa using buildSectionRecord_of_match _ _ hmatch

/-- Acceptance of the symbol-row pattern: any line of the row shape —
leading whitespace, an index and colon, then address (hex), size (decimal),
three word fields, a decimal section index and a name (word characters and
dot), with any trailing text not starting in a name character — matches and
yields the record with the address read in base 16 and the size in base 10. -/
theorem symbolRow_accepts
    (sp num addr sizeD ty bnd vis ndx nm trailing : List Char)
    (hsp : sp ≠ []) (hspall : ∀ c ∈ sp, isSpaceCh c = true)
    (hnum : num ≠ []) (hnumall : ∀ c ∈ num, isDigitCh c = true)
    (haddr : addr ≠ []) (haddrall : ∀ c ∈ addr, isHexCh c = true)
    (hsizeD : sizeD ≠ []) (hsizeDall : ∀ c ∈ sizeD, isDigitCh c = true)
    (hty : ty ≠ []) (htyall : ∀ c ∈ ty, isWordCh c = true)
    (hbnd : bnd ≠ []) (hbndall : ∀ c ∈ bnd, isWordCh c = true)
    (hvis : vis ≠ []) (hvisall : ∀ c ∈ vis, isWordCh c = true)
    (hndx : ndx ≠ []) (hndxall : ∀ c ∈ ndx, isDigitCh c = true)
    (hnm : nm ≠ []) (hnmall : ∀ c ∈ nm, isSymNameCh c = true)
    (htr : headNot isSymNameCh trailing = true) :
    symbolParseRow
      (sp ++ (num ++ ':' :: ' ' :: (addr ++ (' ' :: (sizeD ++ (' ' :: (ty ++ (' ' :: (bnd ++ (' ' :: (vis ++ (' ' :: (ndx ++ (' ' :: (nm ++ trailing))))))))))))))) =
      some ⟨nm, natFromDigits 16 addr, natFromDigits 10 sizeD⟩ := by
  have g6h : runPattern [PatTok.grp isSymNameCh] (nm ++ trailing) = some [nm] := by
    rw [runPattern_grp isSymNameCh [] nm trailing hnm hnmall htr]
    rfl
  have s6h : runPattern
      [PatTok.skip isSpaceCh,
       PatTok.grp isSymNameCh]
      (' ' :: (nm ++ trailing)) = some [nm] := by
    rw [show (' ' :: (nm ++ trailing)) = [' '] ++ (nm ++ trailing) from rfl]
    rw [runPattern_skip isSpaceCh _ [' '] (nm ++ trailing) (by simp) (by decide)
          (headNot_of_class isSpaceCh isSymNameCh symNameCh_not_space nm trailing hnm hnmall)]
    exact g6h
  have g5h : runPattern
      [PatTok.grp isDigitCh,
       PatTok.skip isSpaceCh,
       PatTok.grp isSymNameCh]
      (ndx ++ (' ' :: (nm ++ trailing))) = some [ndx, nm] := by
    rw [runPattern_grp isDigitCh _ ndx (' ' :: (nm ++ trailing)) hndx hndxall rfl, s6h]
    rfl
  have s5h : runPattern
      [PatTok.skip isSpaceCh,
       PatTok.grp isDigitCh,
       PatTok.skip isSpaceCh,
       PatTok.grp isSymNameCh]
      (' ' :: (ndx ++ (' ' :: (nm ++ trailing)))) = some [ndx, nm] := by
    rw [show (' ' :: (ndx ++ (' ' :: (nm ++ trailing)))) = [' '] ++ (ndx ++ (' ' :: (nm ++ trailing))) from rfl]
    rw [runPattern_skip isSpaceCh _ [' '] (ndx ++ (' ' :: (nm ++ trailing))) (by simp) (by decide)
          (headNot_of_class isSpaceCh isDigitCh digitCh_not_space ndx (' ' :: (nm ++ trailing)) hndx hndxall)]
    exact g5h
  have g4h : runPattern
      [PatTok.grp isWordCh,
       PatTok.skip isSpaceCh,
       PatTok.grp isDigitCh,
       PatTok.skip isSpaceCh,
       PatTok.grp isSymNameCh]
      (vis ++ (' ' :: (ndx ++ (' ' :: (nm ++ trailing))))) = some [vis, ndx, nm] := by
    rw [runPattern_grp isWordCh _ vis (' ' :: (ndx ++ (' ' :: (nm ++ trailing)))) hvis hvisall rfl, s5h]
    rfl
  have s4h : runPattern
      [PatTok.skip isSpaceCh,
       PatTok.grp isWordCh,
       PatTok.skip isSpaceCh,
       PatTok.grp isDigitCh,
       PatTok.skip isSpaceCh,
       PatTok.grp isSymNameCh]
      (' ' :: (vis ++ (' ' :: (ndx ++ (' ' :: (nm ++ trailing)))))) = some [vis, ndx, nm] := by
    rw [show (' ' :: (vis ++ (' ' :: (ndx ++ (' ' :: (nm ++ trailing)))))) = [' '] ++ (vis ++ (' ' :: (ndx ++ (' ' :: (nm ++ trailing))))) from rfl]
    rw [runPattern_skip isSpaceCh _ [' '] (vis ++ (' ' :: (ndx ++ (' ' :: (nm ++ trailing))))) (by simp) (by decide)
          (headNot_of_class isSpaceCh isWordCh wordCh_not_space vis (' ' :: (ndx ++ (' ' :: (nm ++ trailing)))) hvis hvisall)]
    exact g4h
  have g3h : runPattern
      [PatTok.grp isWordCh,
       PatTok.skip isSpaceCh,
       PatTok.grp isWordCh,
       PatTok.skip isSpaceCh,
       PatTok.grp isDigitCh,
       PatTok.skip isSpaceCh,
       PatTok.grp isSymNameCh]
      (bnd ++ (' ' :: (vis ++ (' ' :: (ndx ++ (' ' :: (nm ++ trailing))))))) = some [bnd, vis, ndx, nm] := by
    rw [runPattern_grp isWordCh _ bnd (' ' :: (vis ++ (' ' :: (ndx ++ (' ' :: (nm ++ trailing)))))) hbnd hbndall rfl, s4h]
    rfl
  have s3h : runPattern
      [PatTok.skip isSpaceCh,
       PatTok.grp isWordCh,
       PatTok.skip isSpaceCh,
       PatTok.grp isWordCh,
       PatTok.skip isSpaceCh,
       PatTok.grp isDigitCh,
       PatTok.skip isSpaceCh,
       PatTok.grp isSymNameCh]
      (' ' :: (bnd ++ (' ' :: (vis ++ (' ' :: (ndx ++ (' ' :: (nm ++ trailing)))))))) = some [bnd, vis, ndx, nm] := by
    rw [show (' ' :: (bnd ++ (' ' :: (vis ++ (' ' :: (ndx ++ (' ' :: (nm ++ trailing)))))))) = [' '] ++ (bnd ++ (' ' :: (vis ++ (' ' :: (ndx ++ (' ' :: (nm ++ trailing))))))) from rfl]
    rw [runPattern_skip isSpaceCh _ [' '] (bnd ++ (' ' :: (vis ++ (' ' :: (ndx ++ (' ' :: (nm ++ trailing))))))) (by simp) (by decide)
          (headNot_of_class isSpaceCh isWordCh wordCh_not_space bnd (' ' :: (vis ++ (' ' :: (ndx ++ (' ' :: (nm ++ trailing)))))) hbnd hbndall)]
    exact g3h
  have g2h : runPattern
      [PatTok.grp isWordCh,
       PatTok.skip isSpaceCh,
       PatTok.grp isWordCh,
       PatTok.skip isSpaceCh,
       PatTok.grp isWordCh,
       PatTok.skip isSpaceCh,
       PatTok.grp isDigitCh,
       PatTok.skip isSpaceCh,
       PatTok.grp isSymNameCh]
      (ty ++ (' ' :: (bnd ++ (' ' :: (vis ++ (' ' :: (ndx ++ (' ' :: (nm ++ trailing))))))))) = some [ty, bnd, vis, ndx, nm] := by
    rw [runPattern_grp isWordCh _ ty (' ' :: (bnd ++ (' ' :: (vis ++ (' ' :: (ndx ++ (' ' :: (nm ++ trailing)))))))) hty htyall rfl, s3h]
    rfl
  have s2h : runPattern
      [PatTok.skip isSpaceCh,
       PatTok.grp isWordCh,
       PatTok.skip isSpaceCh,
       PatTok.grp isWordCh,
       PatTok.skip isSpaceCh,
       PatTok.grp isWordCh,
       PatTok.skip isSpaceCh,
       PatTok.grp isDigitCh,
       PatTok.skip isSpaceCh,
       PatTok.grp isSymNameCh]
      (' ' :: (ty ++ (' ' :: (bnd ++ (' ' :: (vis ++ (' ' :: (ndx ++ (' ' :: (nm ++ trailing)))))))))) = some [ty, bnd, vis, ndx, nm] := by
    rw [show (' ' :: (ty ++ (' ' :: (bnd ++ (' ' :: (vis ++ (' ' :: (ndx ++ (' ' :: (nm ++ trailing)))))))))) = [' '] ++ (ty ++ (' ' :: (bnd ++ (' ' :: (vis ++ (' ' :: (ndx ++ (' ' :: (nm ++ trailing))))))))) from rfl]
    rw [runPattern_skip isSpaceCh _ [' '] (ty ++ (' ' :: (bnd ++ (' ' :: (vis ++ (' ' :: (ndx ++ (' ' :: (nm ++ trailing))))))))) (by simp) (by decide)
          (headNot_of_class isSpaceCh isWordCh wordCh_not_space ty (' ' :: (bnd ++ (' ' :: (vis ++ (' ' :: (ndx ++ (' ' :: (nm ++ trailing)))))))) hty htyall)]
    exact g2h
  have g1h : runPattern
      [PatTok.grp isDigitCh,
       PatTok.skip isSpaceCh,
       PatTok.grp isWordCh,
       PatTok.skip isSpaceCh,
       PatTok.grp isWordCh,
       PatTok.skip isSpaceCh,
       PatTok.grp isWordCh,
       PatTok.skip isSpaceCh,
       PatTok.grp isDigitCh,
       PatTok.skip isSpaceCh,
       PatTok.grp isSymNameCh]
      (sizeD ++ (' ' :: (ty ++ (' ' :: (bnd ++ (' ' :: (vis ++ (' ' :: (ndx ++ (' ' :: (nm ++ trailing))))))))))) = some [sizeD, ty, bnd, vis, ndx, nm] := by
    rw [runPattern_grp isDigitCh _ sizeD (' ' :: (ty ++ (' ' :: (bnd ++ (' ' :: (vis ++ (' ' :: (ndx ++ (' ' :: (nm ++ trailing)))))))))) hsizeD hsizeDall rfl, s2h]
    rfl
  have s1h : runPattern
      [PatTok.skip isSpaceCh,
       PatTok.grp isDigitCh,
       PatTok.skip isSpaceCh,
       PatTok.grp isWordCh,
       PatTok.skip isSpaceCh,
       PatTok.grp isWordCh,
       PatTok.skip isSpaceCh,
       PatTok.grp isWordCh,
       PatTok.skip isSpaceCh,
       PatTok.grp isDigitCh,
       PatTok.skip isSpaceCh,
       PatTok.grp isSymNameCh]
      (' ' :: (sizeD ++ (' ' :: (ty ++ (' ' :: (bnd ++ (' ' :: (vis ++ (' ' :: (ndx ++ (' ' :: (nm ++ trailing)))))))))))) = some [sizeD, ty, bnd, vis, ndx, nm] := by
    rw [show (' ' :: (sizeD ++ (' ' :: (ty ++ (' ' :: (bnd ++ (' ' :: (vis ++ (' ' :: (ndx ++ (' ' :: (nm ++ trailing)))))))))))) = [' '] ++ (sizeD ++ (' ' :: (ty ++ (' ' :: (bnd ++ (' ' :: (vis ++ (' ' :: (ndx ++ (' ' :: (nm ++ trailing))))))))))) from rfl]
    rw [runPattern_skip isSpaceCh _ [' '] (sizeD ++ (' ' :: (ty ++ (' ' :: (bnd ++ (' ' :: (vis ++ (' ' :: (ndx ++ (' ' :: (nm ++ trailing))))))))))) (by simp) (by decide)
          (headNot_of_class isSpaceCh isDigitCh digitCh_not_space sizeD (' ' :: (ty ++ (' ' :: (bnd ++ (' ' :: (vis ++ (' ' :: (ndx ++ (' ' :: (nm ++ trailing)))))))))) hsizeD hsizeDall)]
    exact g1h
  have g0h : runPattern
      [PatTok.grp isHexCh,
       PatTok.skip isSpaceCh,
       PatTok.grp isDigitCh,
       PatTok.skip isSpaceCh,
       PatTok.grp isWordCh,
       PatTok.skip isSpaceCh,
       PatTok.grp isWordCh,
       PatTok.skip isSpaceCh,
       PatTok.grp isWordCh,
       PatTok.skip isSpaceCh,
       PatTok.grp isDigitCh,
       PatTok.skip isSpaceCh,
       PatTok.grp isSymNameCh]
      (addr ++ (' ' :: (sizeD ++ (' ' :: (ty ++ (' ' :: (bnd ++ (' ' :: (vis ++ (' ' :: (ndx ++ (' ' :: (nm ++ trailing))))))))))))) = some [addr, sizeD, ty, bnd, vis, ndx, nm] := by
    rw [runPattern_grp isHexCh _ addr (' ' :: (sizeD ++ (' ' :: (ty ++ (' ' :: (bnd ++ (' ' :: (vis ++ (' ' :: (ndx ++ (' ' :: (nm ++ trailing)))))))))))) haddr haddrall rfl, s1h]
    rfl
  have spAddr : runPattern
      [PatTok.skip isSpaceCh,
       PatTok.grp isHexCh,
       PatTok.skip isSpaceCh,
       PatTok.grp isDigitCh,
       PatTok.skip isSpaceCh,
       PatTok.grp isWordCh,
       PatTok.skip isSpaceCh,
       PatTok.grp isWordCh,
       PatTok.skip isSpaceCh,
       PatTok.grp isWordCh,
       PatTok.skip isSpaceCh,
       PatTok.grp isDigitCh,
       PatTok.skip isSpaceCh,
       PatTok.grp isSymNameCh]
      (' ' :: (addr ++ (' ' :: (sizeD ++ (' ' :: (ty ++ (' ' :: (bnd ++ (' ' :: (vis ++ (' ' :: (ndx ++ (' ' :: (nm ++ trailing)))))))))))))) = some [addr, sizeD, ty, bnd, vis, ndx, nm] := by
    rw [show (' ' :: (addr ++ (' ' :: (sizeD ++ (' ' :: (ty ++ (' ' :: (bnd ++ (' ' :: (vis ++ (' ' :: (ndx ++ (' ' :: (nm ++ trailing)))))))))))))) = [' '] ++ (addr ++ (' ' :: (sizeD ++ (' ' :: (ty ++ (' ' :: (bnd ++ (' ' :: (vis ++ (' ' :: (ndx ++ (' ' :: (nm ++ trailing))))))))))))) from rfl]
    rw [runPattern_skip isSpaceCh _ [' '] (addr ++ (' ' :: (sizeD ++ (' ' :: (ty ++ (' ' :: (bnd ++ (' ' :: (vis ++ (' ' :: (ndx ++ (' ' :: (nm ++ trailing))))))))))))) (by simp) (by decide)
          (headNot_of_class isSpaceCh isHexCh hexCh_not_space addr (' ' :: (sizeD ++ (' ' :: (ty ++ (' ' :: (bnd ++ (' ' :: (vis ++ (' ' :: (ndx ++ (' ' :: (nm ++ trailing)))))))))))) haddr haddrall)]
    exact g0h
  have colonH : runPattern
      [PatTok.lit ':',
       PatTok.skip isSpaceCh,
       PatTok.grp isHexCh,
       PatTok.skip isSpaceCh,
       PatTok.grp isDigitCh,
       PatTok.skip isSpaceCh,
       PatTok.grp isWordCh,
       PatTok.skip isSpaceCh,
       PatTok.grp isWordCh,
       PatTok.skip isSpaceCh,
       PatTok.grp isWordCh,
       PatTok.skip isSpaceCh,
       PatTok.grp isDigitCh,
       PatTok.skip isSpaceCh,
       PatTok.grp isSymNameCh]
      (':' :: ' ' :: (addr ++ (' ' :: (sizeD ++ (' ' :: (ty ++ (' ' :: (bnd ++ (' ' :: (vis ++ (' ' :: (ndx ++ (' ' :: (nm ++ trailing)))))))))))))) = some [addr, sizeD, ty, bnd, vis, ndx, nm] := by
    rw [runPattern_lit]
    exact spAddr
  have numH : runPattern
      [PatTok.skip isDigitCh, PatTok.lit ':',
       PatTok.skip isSpaceCh,
       PatTok.grp isHexCh,
       PatTok.skip isSpaceCh,
       PatTok.grp isDigitCh,
       PatTok.skip isSpaceCh,
       PatTok.grp isWordCh,
       PatTok.skip isSpaceCh,
       PatTok.grp isWordCh,
       PatTok.skip isSpaceCh,
       PatTok.grp isWordCh,
       PatTok.skip isSpaceCh,
       PatTok.grp isDigitCh,
       PatTok.skip isSpaceCh,
       PatTok.grp isSymNameCh]
      (num ++ ':' :: ' ' :: (addr ++ (' ' :: (sizeD ++ (' ' :: (ty ++ (' ' :: (bnd ++ (' ' :: (vis ++ (' ' :: (ndx ++ (' ' :: (nm ++ trailing)))))))))))))) = some [addr, sizeD, ty, bnd, vis, ndx, nm] := by
    rw [show (num ++ ':' :: ' ' :: (addr ++ (' ' :: (sizeD ++ (' ' :: (ty ++ (' ' :: (bnd ++ (' ' :: (vis ++ (' ' :: (ndx ++ (' ' :: (nm ++ trailing)))))))))))))) = num ++ (':' :: ' ' :: (addr ++ (' ' :: (sizeD ++ (' ' :: (ty ++ (' ' :: (bnd ++ (' ' :: (vis ++ (' ' :: (ndx ++ (' ' :: (nm ++ trailing)))))))))))))) from rfl]
    rw [runPattern_skip isDigitCh _ num (':' :: ' ' :: (addr ++ (' ' :: (sizeD ++ (' ' :: (ty ++ (' ' :: (bnd ++ (' ' :: (vis ++ (' ' :: (ndx ++ (' ' :: (nm ++ trailing)))))))))))))) hnum hnumall rfl]
    exact colonH
  have hrow : runPattern symbolPattern
      (sp ++ (num ++ ':' :: ' ' :: (addr ++ (' ' :: (sizeD ++ (' ' :: (ty ++ (' ' :: (bnd ++ (' ' :: (vis ++ (' ' :: (ndx ++ (' ' :: (nm ++ trailing))))))))))))))) = some [addr, sizeD, ty, bnd, vis, ndx, nm] := by
    unfold symbolPattern
    rw [runPattern_skip isSpaceCh _ sp (num ++ ':' :: ' ' :: (addr ++ (' ' :: (sizeD ++ (' ' :: (ty ++ (' ' :: (bnd ++ (' ' :: (vis ++ (' ' :: (ndx ++ (' ' :: (nm ++ trailing)))))))))))))) hsp hspall
          (headNot_of_class isSpaceCh isDigitCh digitCh_not_space num (':' :: ' ' :: (addr ++ (' ' :: (sizeD ++ (' ' :: (ty ++ (' ' :: (bnd ++ (' ' :: (vis ++ (' ' :: (ndx ++ (' ' :: (nm ++ trailing)))))))))))))) hnum hnumall)]
    exact numH
  have hmatch : symbolRowMatch
      (sp ++ (num ++ ':' :: ' ' :: (addr ++ (' ' :: (sizeD ++ (' ' :: (ty ++ (' ' :: (bnd ++ (' ' :: (vis ++ (' ' :: (ndx ++ (' ' :: (nm ++ trailing))))))))))))))) =
      some ⟨addr, sizeD, ty, bnd, vis, ndx, nm⟩ := by
    unfold symbolRowMatch
    rw [hrow]
  unfold symbolParseRow
  rw [hmatch]
  simpa using buildSymbolRecord_of_match _ _ hmatch

/-! ### Lemmas about the dict model -/

theorem dlookup_dictInsert {α : Type} (m : Dict α) (k k' : List Char) (v : α) :
    dlookup (dictInsert m k v) k' = if k = k' then some v else dlookup m k' := by
  induction m with
  | nil =>
    by_cases h : k = k' <;> simp [dictInsert, dlookup, h]
  | cons e rest ih =>
    obtain ⟨k0, v0⟩ := e
    unfold dictInsert
    by_cases h0 : k0 = k
    · rw [if_pos h0]
      subst h0
      by_cases h1 : k0 = k'
      · subst h1
        simp [dlookup]
      · simp [dlookup, h1]
    · rw [if_neg h0]
      by_cases h1 : k0 = k'
      · subst h1
        have hkk : ¬k = k0 := fun hh => h0 hh.symm
        simp [dlookup, hkk]
      · simp [dlookup, h1, ih]

theorem keys_dictInsert {α : Type} (m : Dict α) (k : List Char) (v : α) :
    (dictInsert m k v).map Prod.fst =
      if k ∈ m.map Prod.fst then m.map Prod.fst else m.map Prod.fst ++ [k] := by
  induction m with
  | nil => simp [dictInsert]
  | cons e rest ih =>
    obtain ⟨k0, v0⟩ := e
    unfold dictInsert
    by_cases h0 : k0 = k
    · subst h0
      rw [if_pos rfl]
      have hmem : k0 ∈ ((k0, v0) :: rest).map Prod.fst := by
        rw [List.map_cons]
        exact List.mem_cons_self _ _
      rw [if_pos hmem]
      rfl
    · rw [if_neg h0]
      have hne : ¬k = k0 := fun hh => h0 hh.symm
      rw [List.map_cons, List.map_cons, ih]
      have hmm : (k ∈ k0 :: rest.map Prod.fst) ↔ (k ∈ rest.map Prod.fst) := by
        rw [List.mem_cons]
        exact or_iff_right hne
      by_cases hk : k ∈ rest.map Prod.fst
      · rw [if_pos hk, if_pos (hmm.mpr hk)]
      · rw [if_neg hk, if_neg (fun hh => hk (hmm.mp hh))]
        rfl

theorem nodupKeys_dictInsert {α : Type} (m : Dict α) (k : List Char) (v : α)
    (h : nodupKeys m) : nodupKeys (dictInsert m k v) := by
  unfold nodupKeys at h ⊢
  rw [keys_dictInsert]
  by_cases hk : k ∈ m.map Prod.fst
  · rw [if_pos hk]
    exact h
  · rw [if_neg hk, List.nodup_append]
    refine ⟨h, List.nodup_singleton k, ?_⟩
    intro a ha hak
    rw [List.mem_singleton] at hak
    exact hk (hak ▸ ha)

theorem dlookup_dictInsertAll {α : Type} (tr : List (List Char × α)) :
    ∀ (m : Dict α) (k : List Char),
      dlookup (dictInsertAll m tr) k =
        match findLastPair tr k with
        | some v => some v
        | none => dlookup m k := by
  induction tr with
  | nil => intro m k; simp [dictInsertAll, findLastPair]
  | cons e tr ih =>
    intro m k
    obtain ⟨k0, v⟩ := e
    unfold dictInsertAll findLastPair
    rw [ih (dictInsert m k0 v) k]
    cases hf : findLastPair tr k with
    | some r => simp
    | none =>
      rw [dlookup_dictInsert]
      by_cases h01 : k0 = k <;> simp [h01]

theorem nodupKeys_dictInsertAll {α : Type} (tr : List (List Char × α)) :
    ∀ m : Dict α, nodupKeys m → nodupKeys (dictInsertAll m tr) := by
  induction tr with
  | nil => intro m h; exact h
  | cons e tr ih =>
    intro m h
    obtain ⟨k0, v⟩ := e
    exact ih (dictInsert m k0 v) (nodupKeys_dictInsert m k0 v h)

/-! ### Lemmas about the two extraction passes -/

theorem dropWhile_of_all (p : Char → Bool) :
    ∀ l : List Char, (∀ c ∈ l, p c = true) → l.dropWhile p = [] := by
  intro l
  induction l with
  | nil => intro _; rfl
  | cons a t ih =>
    intro h
    rw [List.dropWhile_cons, h a (by simp)]
    exact ih (fun c hc => h c (by simp [hc]))

/-- A blank line never matches the section-row pattern (it has no `[`). -/
theorem sectionParseRow_blank (f : List Char) (h : isBlankLine f = true) :
    sectionParseRow f = none := by
  have hd : f.dropWhile isSpaceCh = [] := by
    unfold isBlankLine at h
    exact dropWhile_of_all isSpaceCh f (List.all_eq_true.mp h)
  have hrun : runPattern sectionPattern f = none := by
    unfold sectionPattern
    simp only [runPattern, hd, expectChar]
  unfold sectionParseRow sectionRowMatch
  rw [hrun]
  rfl

theorem sectionStep_no_marker (f : List Char) (m : Dict SectionRecord)
    (h : containsSub sectionMarker f = false) : sectionStep f false m = (false, m) := by
  simp [sectionStep, h]

theorem sectionStep_marker (f : List Char) (m : Dict SectionRecord)
    (h : containsSub sectionMarker f = true) : sectionStep f false m = (true, m) := by
  simp [sectionStep, h]

theorem sectionStep_blank (f : List Char) (m : Dict SectionRecord)
    (h : isBlankLine f = true) : sectionStep f true m = (false, m) := by
  simp [sectionStep, h, sectionParseRow_blank f h]

/-- Lines without the section marker are skipped while not in a table. -/
theorem parseSectionsAux_skip (mid : List (List Char)) :
    ∀ (ls : List (List Char)) (m : Dict SectionRecord),
      (∀ l ∈ mid, containsSub sectionMarker l = false) →
      parseSectionsAux (mid ++ ls) false m = parseSectionsAux ls false m := by
  induction mid with
  | nil => intro ls m _; rfl
  | cons f mid ih =>
    intro ls m h
    have hf : containsSub sectionMarker f = false := h f (by simp)
    have hmid : ∀ l ∈ mid, containsSub sectionMarker l = false :=
      fun l hl => h l (by simp [hl])
    simp only [List.cons_append, parseSectionsAux,
               sectionStep_no_marker f m hf]
    exact ih ls m hmid

/-- A marker line flips the section pass into in-table mode (and is not
itself matched as a row). -/
theorem parseSectionsAux_marker (f : List Char) (ls : List (List Char))
    (m : Dict SectionRecord) (h : containsSub sectionMarker f = true) :
    parseSectionsAux (f :: ls) false m = parseSectionsAux ls true m := by
  simp only [parseSectionsAux, sectionStep_marker f m h]

/-- Lines without the symbol marker are skipped while not in a table. -/
theorem parseSymbolsAux_skip (pre : List (List Char)) :
    ∀ (ls : List (List Char)) (m : Dict SymbolRecord),
      (∀ l ∈ pre, symbolMarker.isPrefixOf l = false) →
      parseSymbolsAux (pre ++ ls) false m = parseSymbolsAux ls false m := by
  induction pre with
  | nil => intro ls m _; rfl
  | cons f pre ih =>
    intro ls m h
    have hf : symbolMarker.isPrefixOf f = false := h f (by simp)
    have hpre : ∀ l ∈ pre, symbolMarker.isPrefixOf l = false :=
      fun l hl => h l (by simp [hl])
    simp only [List.cons_append, parseSymbolsAux]
    rw [show symbolStep f false m = (false, m) from by simp [symbolStep, hf]]
    exact ih ls m hpre

/-- A marker line flips the symbol pass into in-table mode. -/
theorem parseSymbolsAux_marker (f : List Char) (ls : List (List Char))
    (m : Dict SymbolRecord) (h : symbolMarker.isPrefixOf f = true) :
    parseSymbolsAux (f :: ls) false m = parseSymbolsAux ls true m := by
  simp only [parseSymbolsAux]
  rw [show symbolStep f false m = (true, m) from by simp [symbolStep, h]]

/-- Once in-table, the symbol pass stays in-table for the whole input and
the final binding of a name is the record of the last matching row bearing
it; rows never matched leave the dict untouched. -/
theorem findLastSym_cons (l : List Char) (ls : List (List Char)) (k : List Char) :
    findLastSym (l :: ls) k =
      match findLastSym ls k with
      | some r => some r
      | none =>
        match symbolParseRow l with
        | some r => if r.name = k then some r else none
        | none => none := rfl

theorem parseSymbolsAux_lookup (ls : List (List Char)) :
    ∀ (m : Dict SymbolRecord) (k : List Char),
      dlookup (parseSymbolsAux ls true m) k =
        match findLastSym ls k with
        | some r => some r
        | none => dlookup m k := by
  induction ls with
  | nil => intro m k; simp [parseSymbolsAux, findLastSym]
  | cons l ls ih =>
    intro m k
    simp only [parseSymbolsAux]
    cases hp : symbolParseRow l with
    | some r =>
      rw [show symbolStep l true m = (true, dictInsert m r.name r) from by
            simp [symbolStep, hp]]
      rw [ih (dictInsert m r.name r) k, findLastSym_cons, hp]
      cases hf : findLastSym ls k with
      | some r' => simp
      | none =>
        rw [dlookup_dictInsert]
        by_cases hn : r.name = k <;> simp [hn]
    | none =>
      rw [show symbolStep l true m = (true, m) from by simp [symbolStep, hp]]
      rw [ih m k, findLastSym_cons, hp]
      cases hf : findLastSym ls k with
      | some r' => simp
      | none => simp

/-- The section pass is the sequence of dict assignments of its trace. -/
theorem parseSectionsAux_eq_insertAll (ls : List (List Char)) :
    ∀ (st : Bool) (m : Dict SectionRecord),
      parseSectionsAux ls st m = dictInsertAll m (sectionTraceAux ls st) := by
  induction ls with
  | nil => intro st m; rfl
  | cons f rest ih =>
    intro st m
    cases st with
    | false =>
      simp only [parseSectionsAux, sectionTraceAux, sectionStep, Bool.not_false,
                 if_true, ite_true]
      exact ih _ m
    | true =>
      cases hp : sectionParseRow f with
      | some r =>
        simp only [parseSectionsAux, sectionTraceAux, sectionStep, Bool.not_true,
                   if_false, ite_false, hp, dictInsertAll]
        exact ih _ _
      | none =>
        simp only [parseSectionsAux, sectionTraceAux, sectionStep, Bool.not_true,
                   if_false, ite_false, hp]
        exact ih _ _

/-- The symbol pass is the sequence of dict assignments of its trace. -/
theorem parseSymbolsAux_eq_insertAll (ls : List (List Char)) :
    ∀ (st : Bool) (m : Dict SymbolRecord),
      parseSymbolsAux ls st m = dictInsertAll m (symbolTraceAux ls st) := by
  induction ls with
  | nil => intro st m; rfl
  | cons l rest ih =>
    intro st m
    cases st with
    | false =>
      simp only [parseSymbolsAux, symbolTraceAux, symbolStep, Bool.not_false,
                 if_true, ite_true]
      exact ih _ m
    | true =>
      cases hp : symbolParseRow l with
      | some r =>
        simp only [parseSymbolsAux, symbolTraceAux, symbolStep, Bool.not_true,
                   if_false, ite_false, hp, dictInsertAll]
        exact ih _ _
      | none =>
        simp only [parseSymbolsAux, symbolTraceAux, symbolStep, Bool.not_true,
                   if_false, ite_false, hp]
        exact ih _ _

/-- Invariant of the section pass: a record is always stored under its own
name (`sections[match.group(2)]` with `"name": match.group(2)`). -/
theorem parseSectionsAux_names (ls : List (List Char)) :
    ∀ (st : Bool) (m : Dict SectionRecord),
      (∀ k r, dlookup m k = some r → SectionRecord.name r = k) →
      ∀ k r, dlookup (parseSectionsAux ls st m) k = some r → SectionRecord.name r = k := by
  induction ls with
  | nil => intro st m hm; exact hm
  | cons f rest ih =>
    intro st m hm
    cases st with
    | false =>
      simp only [parseSectionsAux, sectionStep, Bool.not_false, if_true, ite_true]
      exact ih _ m hm
    | true =>
      cases hp : sectionParseRow f with
      | some r =>
        simp only [parseSectionsAux, sectionStep, Bool.not_true, if_false,
                   ite_false, hp]
        refine ih _ _ ?_
        intro k r' hk
        replace hk : dlookup (dictInsert m r.name r) k = some r' := by simpa using hk
        rw [dlookup_dictInsert] at hk
        by_cases hn : SectionRecord.name r = k
        · rw [if_pos hn] at hk
          cases hk
          exact hn
        · rw [if_neg hn] at hk
          exact hm k r' hk
      | none =>
        simp only [parseSectionsAux, sectionStep, Bool.not_true, if_false,
                   ite_false, hp]
        exact ih _ m hm

/-- Invariant of the symbol pass: a record is always stored under its own
name (`symbols[match.group(7)]` with `"name": match.group(7)`). -/
theorem parseSymbolsAux_names (ls : List (List Char)) :
    ∀ (st : Bool) (m : Dict SymbolRecord),
      (∀ k r, dlookup m k = some r → SymbolRecord.name r = k) →
      ∀ k r, dlookup (parseSymbolsAux ls st m) k = some r → SymbolRecord.name r = k := by
  induction ls with
  | nil => intro st m hm; exact hm
  | cons l rest ih =>
    intro st m hm
    cases st with
    | false =>
      simp only [parseSymbolsAux, symbolStep, Bool.not_false, if_true, ite_true]
      exact ih _ m hm
    | true =>
      cases hp : symbolParseRow l with
      | some r =>
        simp only [parseSymbolsAux, symbolStep, Bool.not_true, if_false,
                   ite_false, hp]
        refine ih _ _ ?_
        intro k r' hk
        replace hk : dlookup (dictInsert m r.name r) k = some r' := by simpa using hk
        rw [dlookup_dictInsert] at hk
        by_cases hn : SymbolRecord.name r = k
        · rw [if_pos hn] at hk
          cases hk
          exact hn
        · rw [if_neg hn] at hk
          exact hm k r' hk
      | none =>
        simp only [parseSymbolsAux, symbolStep, Bool.not_true, if_false,
                   ite_false, hp]
        exact ih _ m hm

/-! ### Lemmas about the change computation -/

theorem dlookup_eq_none_of_not_mem {α : Type} (m : Dict α) (k : List Char)
    (h : k ∉ m.map Prod.fst) : dlookup m k = none := by
  induction m with
  | nil => rfl
  | cons e rest ih =>
    obtain ⟨k0, v0⟩ := e
    rw [List.map_cons, List.mem_cons] at h
    push_neg at h
    unfold dlookup
    rw [if_neg (fun hh => h.1 hh.symm)]
    exact ih h.2

theorem nodupKeys_cons {α : Type} (k : List Char) (v : α) (rest : Dict α)
    (h : nodupKeys ((k, v) :: rest)) :
    k ∉ rest.map Prod.fst ∧ nodupKeys rest := by
  unfold nodupKeys at h ⊢
  rw [List.map_cons] at h
  exact ⟨(List.nodup_cons.mp h).1, (List.nodup_cons.mp h).2⟩

theorem dlookup_cons {α : Type} (k0 : List Char) (v0 : α) (rest : Dict α) (k : List Char) :
    dlookup ((k0, v0) :: rest) k = if k0 = k then some v0 else dlookup rest k := rfl

theorem changesLoop1_lookup {α : Type} (size : α → Nat) (B : Dict α) :
    ∀ (entries : Dict α) (ch : Dict ChangeRecord) (s : List Char),
      nodupKeys entries →
      dlookup (changesLoop1 size B entries ch) s =
        match dlookup entries s with
        | some o =>
          match dlookup B s with
          | some n =>
            if size o ≠ size n then
              some ⟨size o, size n, (size n : Int) - (size o : Int), "resize".data⟩
            else dlookup ch s
          | none => some ⟨size o, 0, -(size o : Int), "removed".data⟩
        | none => dlookup ch s := by
  intro entries
  induction entries with
  | nil => intro ch s _; simp [changesLoop1, dlookup]
  | cons e rest ih =>
    intro ch s hnd
    obtain ⟨k, o⟩ := e
    obtain ⟨hknotin, hnd'⟩ := nodupKeys_cons k o rest hnd
    have hrestk : dlookup rest k = none := dlookup_eq_none_of_not_mem rest k hknotin
    simp only [changesLoop1]
    rw [ih _ s hnd']
    by_cases hs : k = s
    · subst hs
      rw [hrestk]
      have hfirst : dlookup ((k, o) :: rest) k = some o := by
        rw [dlookup_cons, if_pos rfl]
      rw [hfirst]
      cases hB : dlookup B k with
      | some n =>
        by_cases hsz : size o ≠ size n
        · simp [hsz, dlookup_dictInsert]
        · simp [hsz]
      | none => simp [dlookup_dictInsert]
    · have hsecond : dlookup ((k, o) :: rest) s = dlookup rest s := by
        rw [dlookup_cons, if_neg hs]
      rw [hsecond]
      cases hr : dlookup rest s with
      | some o' =>
        cases hB' : dlookup B s with
        | some n =>
          by_cases hsz : size o' ≠ size n
          · simp [hsz]
          · cases hBk : dlookup B k with
            | some nk =>
              by_cases hszk : size o ≠ size nk <;>
                simp [hsz, hszk, dlookup_dictInsert, hs]
            | none => simp [hsz, dlookup_dictInsert, hs]
        | none => simp
      | none =>
        cases hBk : dlookup B k with
        | some nk =>
          by_cases hszk : size o ≠ size nk <;>
            simp [hszk, dlookup_dictInsert, hs]
        | none => simp [dlookup_dictInsert, hs]

theorem changesLoop2_lookup {α : Type} (size : α → Nat) (A : Dict α) :
    ∀ (entries : Dict α) (ch : Dict ChangeRecord) (s : List Char),
      nodupKeys entries →
      dlookup (changesLoop2 size A entries ch) s =
        match dlookup entries s, dlookup A s with
        | some n, none => some ⟨0, size n, (size n : Int), "added".data⟩
        | _, _ => dlookup ch s := by
  intro entries
  induction entries with
  | nil =>
    intro ch s _
    cases hA : dlookup A s <;> simp [changesLoop2, dlookup, hA]
  | cons e rest ih =>
    intro ch s hnd
    obtain ⟨k, n⟩ := e
    obtain ⟨hknotin, hnd'⟩ := nodupKeys_cons k n rest hnd
    have hrestk : dlookup rest k = none := dlookup_eq_none_of_not_mem rest k hknotin
    simp only [changesLoop2]
    rw [ih _ s hnd']
    by_cases hs : k = s
    · subst hs
      rw [hrestk]
      have hfirst : dlookup ((k, n) :: rest) k = some n := by
        rw [dlookup_cons, if_pos rfl]
      rw [hfirst]
      cases hA : dlookup A k with
      | some o => simp
      | none => simp [dlookup_dictInsert]
    · have hsecond : dlookup ((k, n) :: rest) s = dlookup rest s := by
        rw [dlookup_cons, if_neg hs]
      rw [hsecond]
      cases hr : dlookup rest s with
      | some n' =>
        cases hA : dlookup A s with
        | some o =>
          cases hAk : dlookup A k with
          | some ok => simp
          | none => simp [dlookup_dictInsert, hs]
        | none => simp
      | none =>
        cases hA : dlookup A s with
        | some o =>
          cases hAk : dlookup A k with
          | some ok => simp
          | none => simp [dlookup_dictInsert, hs]
        | none =>
          cases hAk : dlookup A k with
          | some ok => simp
          | none => simp [dlookup_dictInsert, hs]

/-- Full characterization of `_changes` as a map: the binding of every
name `s` in the result as a function of its bindings in the two inputs. -/
theorem changes_lookup {α : Type} (size : α → Nat) (A B : Dict α)
    (hA : nodupKeys A) (hB : nodupKeys B) (s : List Char) :
    dlookup (changes size A B) s =
      match dlookup A s, dlookup B s with
      | some o, some n =>
        if size o ≠ size n then
          some ⟨size o, size n, (size n : Int) - (size o : Int), "resize".data⟩
        else none
      | some o, none => some ⟨size o, 0, -(size o : Int), "removed".data⟩
      | none, some n => some ⟨0, size n, (size n : Int), "added".data⟩
      | none, none => none := by
  unfold changes
  rw [changesLoop2_lookup size A B _ s hB,
      changesLoop1_lookup size B A [] s hA]
  cases hA' : dlookup A s with
  | some o =>
    cases hB' : dlookup B s with
    | some n => by_cases hsz : size o ≠ size n <;> simp [hsz, dlookup]
    | none => simp [dlookup]
  | none =>
    cases hB' : dlookup B s with
    | some n => simp [dlookup]
    | none => simp [dlookup]

instance nodupKeysDecidable {α : Type} (m : Dict α) : Decidable (nodupKeys m) :=
  inferInstanceAs (Decidable ((m.map Prod.fst).Nodup))

/-! ### The claims -/

/-- C1.  For every pair of name-keyed mappings `old_map` and `new_map`
(values carrying a size), `_changes` returns a mapping containing exactly:
for a name in both with differing sizes a resize record with
`old = old size`, `new = new size`, `diff = new - old` (either sign); for a
name only in `old_map` a removed record with `new = 0`, `diff = -old`; for
a name only in `new_map` an added record with `old = 0`, `diff = +new`;
and no record for a name in both with equal sizes. -/
theorem changes_spec {α : Type} (size : α → Nat) (old_map new_map : Dict α)
    (hold : nodupKeys old_map) (hnew : nodupKeys new_map) (s : List Char) :
    dlookup (changes size old_map new_map) s =
      match dlookup old_map s, dlookup new_map s with
      | some o, some n =>
        if size o ≠ size n then
          some ⟨size o, size n, (size n : Int) - (size o : Int), "resize".data⟩
        else none
      | some o, none => some ⟨size o, 0, -(size o : Int), "removed".data⟩
      | none, some n => some ⟨0, size n, (size n : Int), "added".data⟩
      | none, none => none :=
  changes_lookup size old_map new_map hold hnew s

/-- Witness for C1 on the spec's own scenario: old `{foo: 10, bar: 4}`,
new `{foo: 12, baz: 8}`. -/
theorem changes_spec_witness :
    dlookup (changes (fun n : Nat => n) [("foo".data, 10), ("bar".data, 4)]
        [("foo".data, 12), ("baz".data, 8)]) "foo".data =
      some ⟨10, 12, 2, "resize".data⟩ := by
  rw [changes_spec (fun n : Nat => n) [("foo".data, 10), ("bar".data, 4)]
        [("foo".data, 12), ("baz".data, 8)] (by decide) (by decide) "foo".data]
  decide

/-- C2.  Extraction is total (both passes are plain Lean functions into
`Dict`), and an input with no recognizable table headers — no line
containing the section marker, none starting with the symbol marker —
yields empty mappings from both passes. -/
theorem extraction_total_on_headerless (lines : List (List Char))
    (hsec : ∀ l ∈ lines, containsSub sectionMarker l = false)
    (hsym : ∀ l ∈ lines, symbolMarker.isPrefixOf l = false) :
    parseSections lines = [] ∧ parseSymbols lines = [] := by
  constructor
  · have h := parseSectionsAux_skip lines [] [] hsec
    rw [List.append_nil] at h
    exact h
  · have h := parseSymbolsAux_skip lines [] [] hsym
    rw [List.append_nil] at h
    exact h

/-- Witness for C2 on arbitrary unstructured text. -/
theorem extraction_total_on_headerless_witness :
    parseSections ["hello".data, "world".data] = [] ∧
    parseSymbols ["hello".data, "world".data] = [] :=
  extraction_total_on_headerless ["hello".data, "world".data] (by decide) (by decide)

/-- C3.  For a name only in `A`, `changes(A, B)` reports a removed record
with `diff = -size` and `changes(B, A)` reports an added record with
`diff = +size` (antisymmetric diff). -/
theorem changes_one_sided_antisym {α : Type} (size : α → Nat) (A B : Dict α)
    (hA : nodupKeys A) (hB : nodupKeys B) (s : List Char) (o : α)
    (hin : dlookup A s = some o) (hout : dlookup B s = none) :
    dlookup (changes size A B) s =
      some ⟨size o, 0, -(size o : Int), "removed".data⟩ ∧
    dlookup (changes size B A) s =
      some ⟨0, size o, (size o : Int), "added".data⟩ := by
  constructor
  · rw [changes_lookup size A B hA hB s, hin, hout]
  · rw [changes_lookup size B A hB hA s, hout, hin]

/-- Witness for C3 with `A = {foo: 7}`, `B = {}`. -/
theorem changes_one_sided_antisym_witness :
    dlookup (changes (fun n : Nat => n) [("foo".data, 7)] []) "foo".data =
      some ⟨7, 0, -7, "removed".data⟩ ∧
    dlookup (changes (fun n : Nat => n) [] [("foo".data, 7)]) "foo".data =
      some ⟨0, 7, 7, "added".data⟩ :=
  changes_one_sided_antisym (fun n : Nat => n) [("foo".data, 7)] [] (by decide)
    (by decide) "foo".data 7 (by decide) (by decide)

/-- Counterexample to C4 as stated: the name class of the section-row
regex is `[a-z_\.]` with IGNORECASE — digits are NOT in it, although the
claim includes them.  The well-shaped row `[1] .text1 progbits 8 0 4`,
whose name `.text1` contains a digit, matches nothing: in-table it yields
no record at all (the claim says it yields a record named `.text1`). -/
theorem section_name_digit_rejected :
    parseSections ["Section Headers:".data, "[1] .text1 progbits 8 0 4".data] = [] := by
  decide

/-- C4 amended.  In-table, a line is accepted as a section row exactly
when it has the fixed row shape — index in brackets, then name, type tag
and three hex fields, trailing fields ignored — where the name is drawn
from letters, underscore and dot ONLY (no digits: a well-shaped row whose
name contains a digit is skipped, see the counterexample).  Every
well-shaped row over that restricted name set yields a SectionRecord
carrying the full name. -/
theorem section_row_shape_amended
    (lead idx name ty a o sz trailing : List Char)
    (hlead : ∀ c ∈ lead, isSpaceCh c = true)
    (hidx : idx ≠ []) (hidxall : ∀ c ∈ idx, isIdxCh c = true)
    (hname : name ≠ []) (hnameall : ∀ c ∈ name, isNameCh c = true)
    (hty : ty ≠ []) (htyall : ∀ c ∈ ty, isTypeCh c = true)
    (ha : a ≠ []) (haall : ∀ c ∈ a, isHexCh c = true)
    (ho : o ≠ []) (hoall : ∀ c ∈ o, isHexCh c = true)
    (hsz : sz ≠ []) (hszall : ∀ c ∈ sz, isHexCh c = true)
    (htr : headNot isHexCh trailing = true) :
    sectionParseRow
      (lead ++ '[' :: (idx ++ ']' :: ' ' ::
        (name ++ ' ' :: (ty ++ ' ' :: (a ++ ' ' :: (o ++ ' ' :: (sz ++ trailing))))))) =
      some ⟨name, ty, natFromDigits 16 a, natFromDigits 16 o, natFromDigits 16 sz⟩ :=
  sectionRow_accepts lead idx name ty a o sz trailing hlead hidx hidxall hname
    hnameall hty htyall ha haall ho hoall hsz hszall htr

/-- Witness for the amended C4 on the row `[1] .text progbits 8 0 4`. -/
theorem section_row_shape_amended_witness :
    sectionParseRow "[1] .text progbits 8 0 4".data =
      some ⟨".text".data, "progbits".data, natFromDigits 16 ['8'],
            natFromDigits 16 ['0'], natFromDigits 16 ['4']⟩ := by
  have h := section_row_shape_amended [] ['1'] (".text".data) ("progbits".data)
      ['8'] ['0'] ['4'] [] (by decide) (by decide) (by decide) (by decide)
      (by decide) (by decide) (by decide) (by decide) (by decide) (by decide)
      (by decide) (by decide) (by decide) rfl
  exact h

/-- C5.  Pass-specific numeric bases: on every matched section row the
three numeric fields are the base-16 values of the matched address, offset
and size texts; on every matched symbol row the address is the base-16
value and the size the base-10 value of the matched texts
(`natFromDigits b` is the positional base-`b` value). -/
theorem numeric_bases (l : List Char) :
    (∀ g : SectionGroups, sectionRowMatch l = some g →
      sectionParseRow l = some ⟨g.name, g.ty, natFromDigits 16 g.addr,
        natFromDigits 16 g.off, natFromDigits 16 g.size⟩) ∧
    (∀ g : SymbolGroups, symbolRowMatch l = some g →
      symbolParseRow l =
        some ⟨g.name, natFromDigits 16 g.value, natFromDigits 10 g.size⟩) := by
  constructor
  · intro g hg
    unfold sectionParseRow
    rw [hg]
    simpa using buildSectionRecord_of_match l g hg
  · intro g hg
    unfold symbolParseRow
    rw [hg]
    simpa using buildSymbolRecord_of_match l g hg

/-- Witness for C5 on a section row with hex fields `ff 10 a0`. -/
theorem numeric_bases_witness :
    sectionParseRow "[1] .text progbits ff 10 a0".data =
      some ⟨".text".data, "progbits".data, natFromDigits 16 "ff".data,
            natFromDigits 16 "10".data, natFromDigits 16 "a0".data⟩ :=
  (numeric_bases "[1] .text progbits ff 10 a0".data).1
    ⟨"1".data, ".text".data, "progbits".data, "ff".data, "10".data, "a0".data⟩
    (by decide)

/-- C6.  In the section pass a blank line in-table ends the table, the
scan then skips marker-free lines, a later marker line re-enters in-table
mode, and the lines after it are parsed in-table again with the dict
untouched in between; the pass is total whatever the number of markers. -/
theorem section_blank_ends_table_and_rescans
    (blank marker : List Char) (mid rest : List (List Char))
    (m : Dict SectionRecord)
    (hb : isBlankLine blank = true)
    (hmid : ∀ l ∈ mid, containsSub sectionMarker l = false)
    (hmark : containsSub sectionMarker marker = true) :
    parseSectionsAux (blank :: (mid ++ marker :: rest)) true m =
      parseSectionsAux rest true m := by
  have h1 : parseSectionsAux (blank :: (mid ++ marker :: rest)) true m =
      parseSectionsAux (mid ++ marker :: rest) false m := by
    simp only [parseSectionsAux, sectionStep_blank blank m hb]
  rw [h1, parseSectionsAux_skip mid (marker :: rest) m hmid,
      parseSectionsAux_marker marker rest m hmark]

/-- Witness for C6: blank line, junk, a second marker, then a row. -/
theorem section_blank_ends_table_and_rescans_witness :
    parseSectionsAux
      (" ".data :: (["junk".data] ++ "Section Headers:".data ::
        ["[1] .text progbits 8 0 4".data])) true [] =
      parseSectionsAux ["[1] .text progbits 8 0 4".data] true [] :=
  section_blank_ends_table_and_rescans " ".data "Section Headers:".data
    ["junk".data] ["[1] .text progbits 8 0 4".data] [] (by decide) (by decide)
    (by decide)

/-- C7.  In the symbol pass no blank line ends row matching: once the
first header line is seen, the binding of every name in the final mapping
is the record of the LAST matching row anywhere after that header (later
tables and rows, across blank lines and further headers, overwrite
earlier entries; a name never matched is absent). -/
theorem symbol_rows_accumulate_across_tables
    (pre : List (List Char)) (header : List Char) (rest : List (List Char))
    (k : List Char)
    (hpre : ∀ l ∈ pre, symbolMarker.isPrefixOf l = false)
    (hheader : symbolMarker.isPrefixOf header = true) :
    dlookup (parseSymbols (pre ++ header :: rest)) k = findLastSym rest k := by
  unfold parseSymbols
  rw [parseSymbolsAux_skip pre (header :: rest) [] hpre,
      parseSymbolsAux_marker header rest [] hheader,
      parseSymbolsAux_lookup rest [] k]
  cases findLastSym rest k <;> simp [dlookup]

/-- Witness for C7: two rows for `foo` separated by a blank line; the
mapping holds the record of the second. -/
theorem symbol_rows_accumulate_across_tables_witness :
    dlookup (parseSymbols (["x".data] ++ "Symbol table x".data ::
      [" 1: a 2 f g d 3 foo".data, "".data, " 2: b 5 f g d 3 foo".data]))
      "foo".data =
    findLastSym [" 1: a 2 f g d 3 foo".data, "".data, " 2: b 5 f g d 3 foo".data]
      "foo".data :=
  symbol_rows_accumulate_across_tables ["x".data] "Symbol table x".data
    [" 1: a 2 f g d 3 foo".data, "".data, " 2: b 5 f g d 3 foo".data]
    "foo".data (by decide) (by decide)

/-- C8.  Last-write-wins in both passes: each output dict has pairwise
distinct keys (exactly one entry per name) and the binding of a name is
the last `(name, record)` assignment of the pass's matched-row trace. -/
theorem duplicate_names_last_write_wins (lines : List (List Char)) (k : List Char) :
    (dlookup (parseSections lines) k = findLastPair (sectionTraceAux lines false) k ∧
     nodupKeys (parseSections lines)) ∧
    (dlookup (parseSymbols lines) k = findLastPair (symbolTraceAux lines false) k ∧
     nodupKeys (parseSymbols lines)) := by
  refine ⟨⟨?_, ?_⟩, ?_, ?_⟩
  · unfold parseSections
    rw [parseSectionsAux_eq_insertAll lines false [],
        dlookup_dictInsertAll]
    cases findLastPair (sectionTraceAux lines false) k <;> simp [dlookup]
  · unfold parseSections
    rw [parseSectionsAux_eq_insertAll lines false []]
    exact nodupKeys_dictInsertAll _ [] (by decide)
  · unfold parseSymbols
    rw [parseSymbolsAux_eq_insertAll lines false [],
        dlookup_dictInsertAll]
    cases findLastPair (symbolTraceAux lines false) k <;> simp [dlookup]
  · unfold parseSymbols
    rw [parseSymbolsAux_eq_insertAll lines false []]
    exact nodupKeys_dictInsertAll _ [] (by decide)

/-- C9.  Per-line isolation: one loop iteration of either pass leaves the
dict unchanged or inserts one complete record, and on every line that
matches the row shape the numeric conversions are guaranteed to succeed
(the groups are nonempty digit strings), so a numeric failure can never
abort a pass. -/
theorem row_failure_isolated (f : List Char) (st : Bool)
    (m : Dict SectionRecord) (msym : Dict SymbolRecord) :
    ((sectionStep f st m).2 = m ∨
      ∃ r, sectionParseRow f = some r ∧
        (sectionStep f st m).2 = dictInsert m r.name r) ∧
    ((symbolStep f st msym).2 = msym ∨
      ∃ r, symbolParseRow f = some r ∧
        (symbolStep f st msym).2 = dictInsert msym r.name r) ∧
    (∀ g, sectionRowMatch f = some g → ∃ r, buildSectionRecord g = some r) ∧
    (∀ g, symbolRowMatch f = some g → ∃ r, buildSymbolRecord g = some r) := by
  refine ⟨?_, ?_, ?_, ?_⟩
  · cases st with
    | false => exact Or.inl (by simp [sectionStep])
    | true =>
      cases hp : sectionParseRow f with
      | some r => exact Or.inr ⟨r, rfl, by simp [sectionStep, hp]⟩
      | none => exact Or.inl (by simp [sectionStep, hp])
  · cases st with
    | false => exact Or.inl (by simp [symbolStep])
    | true =>
      cases hp : symbolParseRow f with
      | some r => exact Or.inr ⟨r, rfl, by simp [symbolStep, hp]⟩
      | none => exact Or.inl (by simp [symbolStep, hp])
  · intro g hg
    exact ⟨_, buildSectionRecord_of_match f g hg⟩
  · intro g hg
    exact ⟨_, buildSymbolRecord_of_match f g hg⟩

/-- Witness for C9: the conversions succeed on a concrete matched row. -/
theorem row_failure_isolated_witness :
    ∃ r, buildSectionRecord
      ⟨"1".data, ".text".data, "progbits".data, "8".data, "0".data, "4".data⟩ =
      some r :=
  (row_failure_isolated "[1] .text progbits 8 0 4".data true [] []).2.2.1
    ⟨"1".data, ".text".data, "progbits".data, "8".data, "0".data, "4".data⟩
    (by decide)

/-- C10.  Key-record consistency: in both output mappings the record
stored under a key carries that key as its name. -/
theorem key_record_name_consistent (lines : List (List Char)) (k : List Char) :
    (∀ r, dlookup (parseSections lines) k = some r → SectionRecord.name r = k) ∧
    (∀ r, dlookup (parseSymbols lines) k = some r → SymbolRecord.name r = k) := by
  constructor
  · intro r h
    exact parseSectionsAux_names lines false []
      (fun k' r' h' => by simp [dlookup] at h') k r h
  · intro r h
    exact parseSymbolsAux_names lines false []
      (fun k' r' h' => by simp [dlookup] at h') k r h

/-- Witness for C10 on a concrete section table. -/
theorem key_record_name_consistent_witness :
    SectionRecord.name ⟨".text".data, "progbits".data, 8, 0, 4⟩ = ".text".data :=
  (key_record_name_consistent
      ["Section Headers:".data, "[1] .text progbits 8 0 4".data] ".text".data).1
    ⟨".text".data, "progbits".data, 8, 0, 4⟩ (by decide)

end ElfChanges
